import Mathlib

/-!
SCI_B UART driver interface (`r_sci_b_uart.h`).

A shallow embedding of the types declared in
`ra/fsp/inc/instances/r_sci_b_uart.h` and of the driver operations the header
declares. The header carries the enumerations, the instance control block, the
packed baud-setting word and the RS-485 setting; the bodies of the `R_SCI_B_UART_*`
functions and of the transmit interrupt handler are not part of the header and are
modelled from the specification (each such definition says so).

Machine integers are natural numbers; C bit-field members are read and written
with mask-and-shift operations on the containing storage.
-/

namespace SciBUart

/-! ## Bit-field access -/

/-- Mask of a bit-field of width `w` at bit offset `off`. -/
def bf_mask (off w : Nat) : Nat := (2 ^ w - 1) <<< off

/-- Read of a bit-field member: shift down, mask to the member's width. -/
def bf_get (raw off w : Nat) : Nat := (raw >>> off) &&& (2 ^ w - 1)

/-- Write of a bit-field member inside a `W`-bit storage unit: clear the member's bits
(`raw & ~mask`), then or in the new value truncated to the member's width. -/
def bf_set (W raw off w v : Nat) : Nat :=
  (raw &&& ((2 ^ W - 1) ^^^ bf_mask off w)) ||| ((v &&& (2 ^ w - 1)) <<< off)

/-- Allocation of a bit-field declaration list, LSB first: each member (named or unnamed
padding) takes the next free bits of the current container of `unit` bits; a member that
does not fit in what is left of the container starts at the next container. The result
lists each member with its bit offset and width. -/
def allocate {α : Type} (unit : Nat) : Nat → List (Option α × Nat) → List (Option α × Nat × Nat)
  | _, [] => []
  | pos, (nm, w) :: rest =>
    let start := if pos % unit + w ≤ unit then pos else (pos / unit + 1) * unit
    (nm, start, w) :: allocate unit (start + w) rest

/-- Offset and width of the named member `f` in an allocated declaration list. -/
def lookup_field {α : Type} [DecidableEq α] (f : α) : List (Option α × Nat × Nat) → Nat × Nat
  | [] => (0, 0)
  | (nm, off, w) :: rest => if nm = some f then (off, w) else lookup_field f rest

/-- Or of the masks of the unnamed (reserved) members of an allocated declaration list. -/
def reserved_mask {α : Type} : List (Option α × Nat × Nat) → Nat
  | [] => 0
  | (none, off, w) :: rest => bf_mask off w ||| reserved_mask rest
  | (some _, _, _) :: rest => reserved_mask rest

/-! ## Enumerations -/

/-- Enumeration for SCI clock source. -/
inductive sci_b_clk_src_t
  | SCI_B_UART_CLOCK_INT
  | SCI_B_UART_CLOCK_INT_WITH_BAUDRATE_OUTPUT
  | SCI_B_UART_CLOCK_EXT8X
  | SCI_B_UART_CLOCK_EXT16X
  deriving DecidableEq, Repr

/-- Numeric value of a clock source (implicit enumerator values 0..3). -/
def sci_b_clk_src_t.toNat : sci_b_clk_src_t → Nat
  | .SCI_B_UART_CLOCK_INT => 0
  | .SCI_B_UART_CLOCK_INT_WITH_BAUDRATE_OUTPUT => 1
  | .SCI_B_UART_CLOCK_EXT8X => 2
  | .SCI_B_UART_CLOCK_EXT16X => 3

/-- UART flow control mode definition. -/
inductive sci_b_uart_flow_control_t
  | SCI_B_UART_FLOW_CONTROL_RTS
  | SCI_B_UART_FLOW_CONTROL_CTS
  | SCI_B_UART_FLOW_CONTROL_HARDWARE_CTSRTS
  | SCI_B_UART_FLOW_CONTROL_CTSRTS
  deriving DecidableEq, Repr

/-- Numeric value of a flow control mode, as written in the enumeration. -/
def sci_b_uart_flow_control_t.toNat : sci_b_uart_flow_control_t → Nat
  | .SCI_B_UART_FLOW_CONTROL_RTS => 0
  | .SCI_B_UART_FLOW_CONTROL_CTS => 1
  | .SCI_B_UART_FLOW_CONTROL_HARDWARE_CTSRTS => 3
  | .SCI_B_UART_FLOW_CONTROL_CTSRTS => 5

/-- Decoding of a raw value into a flow control mode: the enumerator with that value,
if there is one. -/
def sci_b_uart_flow_control_t.ofNat? (n : Nat) : Option sci_b_uart_flow_control_t :=
  if n = 0 then some .SCI_B_UART_FLOW_CONTROL_RTS
  else if n = 1 then some .SCI_B_UART_FLOW_CONTROL_CTS
  else if n = 3 then some .SCI_B_UART_FLOW_CONTROL_HARDWARE_CTSRTS
  else if n = 5 then some .SCI_B_UART_FLOW_CONTROL_CTSRTS
  else none

/-- Receive FIFO trigger configuration. -/
inductive sci_b_uart_rx_fifo_trigger_t
  | SCI_B_UART_RX_FIFO_TRIGGER_1
  | SCI_B_UART_RX_FIFO_TRIGGER_MAX
  deriving DecidableEq, Repr

/-- Numeric value of a receive FIFO trigger level (`0x1`, `0xF`). -/
def sci_b_uart_rx_fifo_trigger_t.toNat : sci_b_uart_rx_fifo_trigger_t → Nat
  | .SCI_B_UART_RX_FIFO_TRIGGER_1 => 0x1
  | .SCI_B_UART_RX_FIFO_TRIGGER_MAX => 0xF

/-- Asynchronous start bit edge detection configuration. -/
inductive sci_b_uart_start_bit_detect_t
  | SCI_B_UART_START_BIT_LOW_LEVEL
  | SCI_B_UART_START_BIT_FALLING_EDGE
  deriving DecidableEq, Repr

/-- Noise cancellation configuration. -/
inductive sci_b_uart_noise_cancellation_t
  | SCI_B_UART_NOISE_CANCELLATION_DISABLE
  | SCI_B_UART_NOISE_CANCELLATION_ENABLE
  deriving DecidableEq, Repr

/-- RS-485 enable/disable. -/
inductive sci_b_uart_rs485_enable_t
  | SCI_B_UART_RS485_DISABLE
  | SCI_B_UART_RS485_ENABLE
  deriving DecidableEq, Repr

/-- The polarity of the RS-485 DE signal. -/
inductive sci_b_uart_rs485_de_polarity_t
  | SCI_B_UART_RS485_DE_POLARITY_HIGH
  | SCI_B_UART_RS485_DE_POLARITY_LOW
  deriving DecidableEq, Repr

/-! ## Baud setting word -/

/-- The named members of `baudrate_bits_b`. -/
inductive baud_field
  | bgdm | abcs | abcse | brr | brme | cks | mddr
  deriving DecidableEq, Repr

/-- The members of `baudrate_bits_b` in declaration order, unnamed padding as `none`,
each with its declared width; every member has type `uint32_t`. -/
def baudrate_bits_decl : List (Option baud_field × Nat) :=
  [(none, 3), (none, 1), (some .bgdm, 1), (some .abcs, 1), (some .abcse, 1), (none, 1),
   (some .brr, 8), (some .brme, 1), (none, 3), (some .cks, 2), (none, 2), (some .mddr, 8)]

/-- The bit-field of `baudrate_bits_b` allocated in its 32-bit container. -/
def baudrate_bits_layout : List (Option baud_field × Nat × Nat) :=
  allocate 32 0 baudrate_bits_decl

/-- Bit offset of a baud-setting member. -/
def baud_field.off (f : baud_field) : Nat := (lookup_field f baudrate_bits_layout).1

/-- Width in bits of a baud-setting member. -/
def baud_field.width (f : baud_field) : Nat := (lookup_field f baudrate_bits_layout).2

/-- Whether bit `i` of the word belongs to member `f`. -/
def baud_field.covers (f : baud_field) (i : Nat) : Bool :=
  decide (f.off ≤ i) && decide (i < f.off + f.width)

/-- All named members, in declaration order. -/
def baud_field.all : List baud_field := [.bgdm, .abcs, .abcse, .brr, .brme, .cks, .mddr]

/-- Mask of the reserved (unnamed) bits of the baud-setting word. -/
def baud_reserved_mask : Nat := reserved_mask baudrate_bits_layout

/-- Register settings to achieve a desired baud rate and modulation duty: the union of
the raw word `baudrate_bits` with the bit-field view `baudrate_bits_b`. -/
structure sci_b_baud_setting_t where
  baudrate_bits : Nat
  deriving DecidableEq, Repr

/-- Read of member `f` of the bit-field view. -/
def sci_b_baud_setting_t.load (s : sci_b_baud_setting_t) (f : baud_field) : Nat :=
  bf_get s.baudrate_bits f.off f.width

/-- Write of member `f` of the bit-field view. -/
def sci_b_baud_setting_t.store (s : sci_b_baud_setting_t) (f : baud_field) (v : Nat) :
    sci_b_baud_setting_t :=
  ⟨bf_set 32 s.baudrate_bits f.off f.width v⟩

/-- The seven named members of `baudrate_bits_b` as separate values. -/
structure baudrate_bits_b where
  bgdm : Nat
  abcs : Nat
  abcse : Nat
  brr : Nat
  brme : Nat
  cks : Nat
  mddr : Nat
  deriving DecidableEq, Repr

/-- Conversion of field values to the raw word: a zeroed setting with each named member
assigned in turn. -/
def baudrate_bits_b.toRaw (b : baudrate_bits_b) : sci_b_baud_setting_t :=
  ((((((sci_b_baud_setting_t.mk 0).store .bgdm b.bgdm).store .abcs b.abcs).store .abcse b.abcse
    |>.store .brr b.brr).store .brme b.brme).store .cks b.cks).store .mddr b.mddr

/-- Each named member read back from the raw word. -/
def sci_b_baud_setting_t.fields (s : sci_b_baud_setting_t) : baudrate_bits_b :=
  { bgdm := s.load .bgdm, abcs := s.load .abcs, abcse := s.load .abcse, brr := s.load .brr,
    brme := s.load .brme, cks := s.load .cks, mddr := s.load .mddr }

/-- Field values that fit the declared widths. -/
def baudrate_bits_b.in_range (b : baudrate_bits_b) : Prop :=
  b.bgdm < 2 ∧ b.abcs < 2 ∧ b.abcse < 2 ∧ b.brme < 2 ∧ b.cks < 4 ∧ b.brr < 256 ∧ b.mddr < 256

instance (b : baudrate_bits_b) : Decidable b.in_range := by
  unfold baudrate_bits_b.in_range
  infer_instance

/-! ## RS-485 setting -/

/-- The bit-field members of `sci_b_uart_rs485_setting_t`. -/
inductive rs485_field
  | assertion_time | negation_time
  deriving DecidableEq, Repr

/-- The bit-field members of the RS-485 setting in declaration order with their declared
widths; both have type `uint8_t`. -/
def rs485_time_decl : List (Option rs485_field × Nat) :=
  [(some .assertion_time, 5), (some .negation_time, 5)]

/-- The two timing members allocated in `uint8_t` containers. -/
def rs485_time_layout : List (Option rs485_field × Nat × Nat) :=
  allocate 8 0 rs485_time_decl

/-- Bit offset of an RS-485 timing member inside the timing storage. -/
def rs485_field.off (f : rs485_field) : Nat := (lookup_field f rs485_time_layout).1

/-- Width in bits of an RS-485 timing member. -/
def rs485_field.width (f : rs485_field) : Nat := (lookup_field f rs485_time_layout).2

/-- Configuration settings for controlling the DE signal for RS-485. `enable` and
`polarity` hold the enumerator values; `time_bits` is the storage (two bytes) that
holds the `assertion_time : 5` and `negation_time : 5` members. -/
structure sci_b_uart_rs485_setting_t where
  enable : Nat
  polarity : Nat
  time_bits : Nat
  deriving DecidableEq, Repr

/-- Read of the `assertion_time` member. -/
def sci_b_uart_rs485_setting_t.assertion_time (s : sci_b_uart_rs485_setting_t) : Nat :=
  bf_get s.time_bits rs485_field.assertion_time.off rs485_field.assertion_time.width

/-- Read of the `negation_time` member. -/
def sci_b_uart_rs485_setting_t.negation_time (s : sci_b_uart_rs485_setting_t) : Nat :=
  bf_get s.time_bits rs485_field.negation_time.off rs485_field.negation_time.width

/-- Assignment to the `assertion_time` member. -/
def sci_b_uart_rs485_setting_t.set_assertion_time (s : sci_b_uart_rs485_setting_t) (v : Nat) :
    sci_b_uart_rs485_setting_t :=
  { s with time_bits :=
      bf_set 16 s.time_bits rs485_field.assertion_time.off rs485_field.assertion_time.width v }

/-- Assignment to the `negation_time` member. -/
def sci_b_uart_rs485_setting_t.set_negation_time (s : sci_b_uart_rs485_setting_t) (v : Nat) :
    sci_b_uart_rs485_setting_t :=
  { s with time_bits :=
      bf_set 16 s.time_bits rs485_field.negation_time.off rs485_field.negation_time.width v }

/-! ## Configuration and instance control block -/

/-- UART on SCI device configuration. Enumeration-typed members hold the numeric value
the caller stored; `p_baud_setting` is the setting the pointer refers to. -/
structure sci_b_uart_extended_cfg_t where
  clock : Nat
  rx_edge_start : Nat
  noise_cancel : Nat
  p_baud_setting : sci_b_baud_setting_t
  rx_fifo_trigger : Nat
  flow_control_pin : Nat
  flow_control : Nat
  rs485_setting : sci_b_uart_rs485_setting_t
  deriving DecidableEq, Repr

/-- UART instance control block. Pointers are addresses, `0` the null pointer. -/
structure sci_b_uart_instance_ctrl_t where
  fifo_depth : Nat
  rx_transfer_in_progress : Nat
  data_bytes : Nat
  bitrate_modulation : Nat
  «open» : Nat
  flow_pin : Nat
  p_tx_src : Nat
  tx_src_bytes : Nat
  p_rx_dest : Nat
  rx_dest_bytes : Nat
  p_cfg : Nat
  p_reg : Nat
  p_callback : Nat
  p_callback_memory : Nat
  p_context : Nat
  deriving DecidableEq, Repr

/-! ## Driver state and operations -/

/-- Modelled from the spec: the result codes of the control operations (`fsp_err_t` is
declared in a header that is not part of the sources), named as the specification names
them. -/
inductive fsp_err_t
  | Success
  | NotOpen
  | AlreadyOpen
  | InvalidArgument
  | InProgress
  | UnsupportedConfiguration
  deriving DecidableEq, Repr

/-- Modelled from the spec: the event kinds delivered through the registered callback
(`uart_event_t` is declared in `r_uart_api.h`, which is not part of the sources). -/
inductive uart_event_t
  | TX_COMPLETE
  | RX_COMPLETE
  | ERR_FRAMING
  | ERR_PARITY
  | ERR_OVERFLOW
  | BREAK_DETECT
  deriving DecidableEq, Repr

/-- Modelled from the spec: one channel as the driver sees it (the peripheral registers
are not part of the sources): the instance control block, whether the transmit
FIFO-fill interrupt is enabled in the peripheral, the number of bytes written to the FIFO
by each fill event so far, and the events raised through the callback so far. -/
structure uart_state where
  ctrl : sci_b_uart_instance_ctrl_t
  tx_fill_irq : Bool
  fifo_fills : List Nat
  events : List uart_event_t
  deriving DecidableEq, Repr

/-- Modelled from the spec: the body of `R_SCI_B_UART_Open`, which the header only
declares. It fails with `AlreadyOpen` on an open instance; it validates the clock source,
the flow-control mode and the RS-485 timing bounds and fails with `InvalidArgument` when
one is out of range or the flow-control/RS-485 pin combination is unsupported
(`pins_ok`, which the specification does not detail); it fails with
`UnsupportedConfiguration` when the combination is not realizable on the channel
(`realizable`, likewise); otherwise it marks the instance open, records the
configuration reference and clears the transfer state. -/
def R_SCI_B_UART_Open (pins_ok : sci_b_uart_extended_cfg_t → Bool)
    (realizable : sci_b_uart_instance_ctrl_t → sci_b_uart_extended_cfg_t → Bool)
    (u : uart_state) (p_cfg : Nat) (cfg : sci_b_uart_extended_cfg_t) : fsp_err_t × uart_state :=
  if u.ctrl.«open» ≠ 0 then (.AlreadyOpen, u)
  else if 3 < cfg.clock ∨ (sci_b_uart_flow_control_t.ofNat? cfg.flow_control).isNone
      ∨ 31 < cfg.rs485_setting.assertion_time ∨ 31 < cfg.rs485_setting.negation_time
      ∨ pins_ok cfg = false then (.InvalidArgument, u)
  else if realizable u.ctrl cfg = false then (.UnsupportedConfiguration, u)
  else
    (.Success,
      { u with
        ctrl := { u.ctrl with
          «open» := 1, p_cfg := p_cfg, p_tx_src := 0, tx_src_bytes := 0,
          p_rx_dest := 0, rx_dest_bytes := 0, rx_transfer_in_progress := 0 },
        tx_fill_irq := false })

/-- Modelled from the spec: the body of `R_SCI_B_UART_Write`, which the header only
declares. It fails with `NotOpen` on a closed instance and with `InProgress` if a
transmit transfer is already active (`tx_src_bytes` not zero); it fails with
`InvalidArgument` if the count is zero or the buffer reference is null; otherwise it
records the buffer and count as the active transmit transfer and enables the FIFO-fill
interrupt. The specification does not order the `InProgress` and `InvalidArgument`
checks; they are taken in the order of its Behavior paragraph, which agrees with its
statement that Write while a transfer is active fails with `InProgress`. -/
def R_SCI_B_UART_Write (u : uart_state) (p_src : Nat) (bytes : Nat) : fsp_err_t × uart_state :=
  if u.ctrl.«open» = 0 then (.NotOpen, u)
  else if u.ctrl.tx_src_bytes ≠ 0 then (.InProgress, u)
  else if bytes = 0 ∨ p_src = 0 then (.InvalidArgument, u)
  else
    (.Success,
      { u with
        ctrl := { u.ctrl with p_tx_src := p_src, tx_src_bytes := bytes },
        tx_fill_irq := true })

/-- Modelled from the spec: the Transmit Engine interrupt handler, which is not in the
header. On a FIFO-empty event (delivered only while the fill interrupt is enabled) it
writes up to `fifo_depth` (or 1, if there is no FIFO) bytes from the remaining source,
advancing the source pointer and decrementing the remaining count; when the count
reaches zero it disables the fill interrupt and raises `TX_COMPLETE`. -/
def tx_fifo_empty_event (u : uart_state) : uart_state :=
  if u.tx_fill_irq = false then u
  else
    let room := if u.ctrl.fifo_depth = 0 then 1 else u.ctrl.fifo_depth
    let k := min room u.ctrl.tx_src_bytes
    let rest := u.ctrl.tx_src_bytes - k
    let ctrl := { u.ctrl with p_tx_src := u.ctrl.p_tx_src + k, tx_src_bytes := rest }
    if rest = 0 then
      { ctrl := ctrl, tx_fill_irq := false, fifo_fills := u.fifo_fills ++ [k],
        events := u.events ++ [.TX_COMPLETE] }
    else
      { ctrl := ctrl, tx_fill_irq := true, fifo_fills := u.fifo_fills ++ [k],
        events := u.events }

/-- Modelled from the spec: the state after `k` successive FIFO-empty events of the
Transmit Engine. -/
def tx_fifo_empty_events : Nat → uart_state → uart_state
  | 0, u => u
  | k + 1, u => tx_fifo_empty_events k (tx_fifo_empty_event u)

/-- Number of fill events the claim predicts for `n` bytes and FIFO depth `d`:
the ceiling of `n / d`. -/
def fill_events (n d : Nat) : Nat := (n + d - 1) / d

/-! ## Baud solver -/

/-- Modelled from the spec: the error of a setting, the absolute difference between the
actual and the desired bit rate. -/
def baud_error (actual desired : Nat) : Nat :=
  if desired ≤ actual then actual - desired else desired - actual

/-- Modelled from the spec: whether the actual rate is within `tol` parts per thousand of
the desired rate. -/
def within_tolerance (actual desired tol : Nat) : Bool :=
  decide (baud_error actual desired * 1000 ≤ tol * desired)

/-- Modelled from the spec: the search for the smallest error, the first element of least
error in a list, starting from the best one found so far. -/
def pick_best {α : Type} (err : α → Nat) : Option α → List α → Option α
  | acc, [] => acc
  | none, x :: xs => pick_best err (some x) xs
  | some b, x :: xs => pick_best err (if err x < err b then some x else some b) xs

/-- Modelled from the spec: the settings without modulation: clock-select divisor 0..3,
bit-rate divisor 0..255, every combination of the double-speed and base-clock-select
flags; `brme` is clear and `mddr`, which is not relevant then, is left zero. Smaller
divisors come first. -/
def baud_candidates_plain : List baudrate_bits_b :=
  (List.range 4).flatMap fun cks =>
    (List.range 256).flatMap fun brr =>
      (List.range 2).flatMap fun bgdm =>
        (List.range 2).flatMap fun abcs =>
          (List.range 2).map fun abcse =>
            { bgdm := bgdm, abcs := abcs, abcse := abcse, brr := brr, brme := 0, cks := cks,
              mddr := 0 }

/-- Modelled from the spec: the settings with modulation: the same space, with `brme`
set and a modulation-duty value 128..255. -/
def baud_candidates_modulated : List baudrate_bits_b :=
  baud_candidates_plain.flatMap fun c =>
    (List.range 128).map fun m => { c with brme := 1, mddr := 128 + m }

/-- Modelled from the spec: the settings the solver examines for a given modulation
permission. -/
def baud_search_space (bitrate_modulation : Bool) : List baudrate_bits_b :=
  baud_candidates_plain ++ (if bitrate_modulation then baud_candidates_modulated else [])

/-- Modelled from the spec: the body of `R_SCI_B_UART_BaudCalculate`, which the header
only declares. `actual_rate` gives the bit rate a setting produces at the peripheral
clock frequency (the specification does not give the formula). The solver finds the
setting without modulation of smallest error; if that error exceeds the tolerance and
modulation is permitted it searches the settings with a modulation-duty value as well.
It returns the packed setting found, or fails with `InvalidArgument` when the rate is
not achievable within the tolerance. -/
def R_SCI_B_UART_BaudCalculate (actual_rate : baudrate_bits_b → Nat) (baudrate : Nat)
    (bitrate_modulation : Bool) (baud_rate_error_x_1000 : Nat) :
    Except fsp_err_t sci_b_baud_setting_t :=
  let err := fun c => baud_error (actual_rate c) baudrate
  match pick_best err none baud_candidates_plain with
  | none => .error .InvalidArgument
  | some b =>
    if within_tolerance (actual_rate b) baudrate baud_rate_error_x_1000 then .ok b.toRaw
    else if bitrate_modulation then
      match pick_best err none baud_candidates_modulated with
      | none => .error .InvalidArgument
      | some m =>
        if within_tolerance (actual_rate m) baudrate baud_rate_error_x_1000 then .ok m.toRaw
        else .error .InvalidArgument
    else .error .InvalidArgument

/-! ## Bit-field lemmas -/

theorem testBit_bf_set (W raw off w v i : Nat) (hW : off + w ≤ W) :
    (bf_set W raw off w v).testBit i =
      if off ≤ i ∧ i < off + w then v.testBit (i - off)
      else (raw.testBit i && decide (i < W)) := by
  unfold bf_set bf_mask
  simp only [Nat.testBit_or, Nat.testBit_and, Nat.testBit_xor, Nat.testBit_shiftLeft,
    Nat.testBit_two_pow_sub_one]
  by_cases h1 : off ≤ i
  · by_cases h2 : i < off + w
    · have h3 : i < W := by omega
      have h4 : i - off < w := by omega
      simp [h1, h2, h3, h4]
    · have h4 : ¬ i - off < w := by omega
      by_cases h3 : i < W <;> simp [h1, h2, h3, h4]
  · by_cases h3 : i < W <;> simp [h1, h3]

theorem testBit_bf_get (raw off w j : Nat) :
    (bf_get raw off w).testBit j = (raw.testBit (off + j) && decide (j < w)) := by
  unfold bf_get
  simp only [Nat.testBit_and, Nat.testBit_shiftRight, Nat.testBit_two_pow_sub_one]

theorem testBit_bf_mask (off w i : Nat) :
    (bf_mask off w).testBit i = (decide (off ≤ i) && decide (i < off + w)) := by
  unfold bf_mask
  simp only [Nat.testBit_shiftLeft, Nat.testBit_two_pow_sub_one]
  by_cases h1 : off ≤ i
  · by_cases h2 : i < off + w
    · have h4 : i - off < w := by omega
      simp [h1, h2, h4]
    · have h4 : ¬ i - off < w := by omega
      simp [h1, h2, h4]
  · simp [h1]

theorem bf_get_set_same (W raw off w v : Nat) (hW : off + w ≤ W) :
    bf_get (bf_set W raw off w v) off w = v % 2 ^ w := by
  apply Nat.eq_of_testBit_eq
  intro j
  rw [testBit_bf_get, testBit_bf_set _ _ _ _ _ _ hW, Nat.testBit_mod_two_pow]
  by_cases hj : j < w
  · have hin : off ≤ off + j ∧ off + j < off + w := by omega
    simp [hj, hin]
  · simp [hj]

theorem bf_get_set_other (W raw off w v off2 w2 : Nat) (hW : off + w ≤ W)
    (hW2 : off2 + w2 ≤ W) (hd : off + w ≤ off2 ∨ off2 + w2 ≤ off) :
    bf_get (bf_set W raw off w v) off2 w2 = bf_get raw off2 w2 := by
  apply Nat.eq_of_testBit_eq
  intro j
  rw [testBit_bf_get, testBit_bf_set _ _ _ _ _ _ hW, testBit_bf_get]
  by_cases hj : j < w2
  · have h1 : ¬ (off ≤ off2 + j ∧ off2 + j < off + w) := by omega
    have h2 : off2 + j < W := by omega
    simp [hj, h1, h2]
  · simp [hj]

theorem bf_get_lt (raw off w : Nat) : bf_get raw off w < 2 ^ w := by
  unfold bf_get
  exact Nat.and_lt_two_pow _ (by have := Nat.two_pow_pos w; omega)

theorem bf_set_lt (W raw off w v : Nat) (hW : off + w ≤ W) : bf_set W raw off w v < 2 ^ W := by
  apply Nat.lt_pow_two_of_testBit
  intro i hi
  rw [testBit_bf_set _ _ _ _ _ _ hW]
  have h1 : ¬ (off ≤ i ∧ i < off + w) := by omega
  have h2 : ¬ i < W := by omega
  simp [h1, h2]

/-! ## Layout of the baud-setting word -/

theorem baud_field_fits (f : baud_field) : f.off + f.width ≤ 32 := by
  cases f <;> decide

theorem baud_field_disjoint (f g : baud_field) (h : f ≠ g) :
    f.off + f.width ≤ g.off ∨ g.off + g.width ≤ f.off := by
  cases f <;> cases g <;> first | exact absurd rfl h | decide

theorem baud_reserved_mask_eq : baud_reserved_mask = 0x00CE008F := by decide

theorem baud_bits_once :
    ∀ i, i < 32 →
      (baud_field.all.filter fun f => f.covers i).length
        + (if baud_reserved_mask.testBit i then 1 else 0) = 1 := by
  decide

theorem load_store_same (s : sci_b_baud_setting_t) (f : baud_field) (v : Nat) :
    (s.store f v).load f = v % 2 ^ f.width :=
  bf_get_set_same 32 _ _ _ _ (baud_field_fits f)

theorem load_store_other (s : sci_b_baud_setting_t) (f g : baud_field) (v : Nat) (h : f ≠ g) :
    (s.store f v).load g = s.load g :=
  bf_get_set_other 32 _ _ _ _ _ _ (baud_field_fits f) (baud_field_fits g)
    (baud_field_disjoint f g h)

theorem toRaw_fields (b : baudrate_bits_b) (h : b.in_range) : b.toRaw.fields = b := by
  obtain ⟨h1, h2, h3, h4, h5, h6, h7⟩ := h
  have w1 : baud_field.bgdm.width = 1 := by decide
  have w2 : baud_field.abcs.width = 1 := by decide
  have w3 : baud_field.abcse.width = 1 := by decide
  have w4 : baud_field.brr.width = 8 := by decide
  have w5 : baud_field.brme.width = 1 := by decide
  have w6 : baud_field.cks.width = 2 := by decide
  have w7 : baud_field.mddr.width = 8 := by decide
  cases b
  simp only [baudrate_bits_b.toRaw, sci_b_baud_setting_t.fields] at *
  simp only [load_store_same, load_store_other, ne_eq, reduceCtorEq, not_false_eq_true,
    w1, w2, w3, w4, w5, w6, w7]
  simp only [baudrate_bits_b.mk.injEq]
  refine ⟨?_, ?_, ?_, ?_, ?_, ?_, ?_⟩ <;> apply Nat.mod_eq_of_lt <;> omega

theorem baud_reserved_not_covered (f : baud_field) (i : Nat)
    (h : baud_reserved_mask.testBit i = true) : f.covers i = false := by
  by_cases hi : i < 32
  · have hall : ∀ g : baud_field, ∀ j, j < 32 →
        baud_reserved_mask.testBit j = true → g.covers j = false := by
      intro g
      cases g <;> decide
    exact hall f i hi h
  · have hf := baud_field_fits f
    simp only [baud_field.covers, Bool.and_eq_false_imp, decide_eq_true_eq, decide_eq_false_iff_not]
    intro _
    omega

/-! ## Claims about the baud-setting word -/

/-- C1: the named members of the baud setting sit at bgdm = bit 4, abcs = bit 5,
abcse = bit 6, brr = bits 8..15, brme = bit 16, cks = bits 20..21, mddr = bits 24..31;
field values within their widths converted to the raw 32-bit word read back unchanged,
in particular every point with cks in 0..3, brr in 0..255 and mddr in 128..255. -/
theorem baud_setting_roundtrip (b : baudrate_bits_b) (h : b.in_range) :
    ((baud_field.bgdm.off, baud_field.bgdm.width) = (4, 1)
      ∧ (baud_field.abcs.off, baud_field.abcs.width) = (5, 1)
      ∧ (baud_field.abcse.off, baud_field.abcse.width) = (6, 1)
      ∧ (baud_field.brr.off, baud_field.brr.width) = (8, 8)
      ∧ (baud_field.brme.off, baud_field.brme.width) = (16, 1)
      ∧ (baud_field.cks.off, baud_field.cks.width) = (20, 2)
      ∧ (baud_field.mddr.off, baud_field.mddr.width) = (24, 8))
    ∧ b.toRaw.baudrate_bits < 2 ^ 32
    ∧ b.toRaw.fields = b
    ∧ (∀ c : baudrate_bits_b, c.bgdm < 2 → c.abcs < 2 → c.abcse < 2 → c.brme < 2 →
        c.cks ≤ 3 → c.brr ≤ 255 → 128 ≤ c.mddr → c.mddr ≤ 255 → c.toRaw.fields = c) := by
  refine ⟨by decide, ?_, toRaw_fields b h, ?_⟩
  · exact bf_set_lt 32 _ _ _ _ (baud_field_fits _)
  · intro c h1 h2 h3 h4 h5 h6 _ h8
    exact toRaw_fields c ⟨h1, h2, h3, h4, by omega, by omega, by omega⟩

/-- C1, at a setting of the solver's search space (double speed, cks = 2, brr = 77,
modulation on with mddr = 200). -/
theorem baud_setting_roundtrip_witness :
    (baudrate_bits_b.mk 1 0 0 77 1 2 200).in_range
    ∧ (baudrate_bits_b.mk 1 0 0 77 1 2 200).toRaw.fields = baudrate_bits_b.mk 1 0 0 77 1 2 200
    ∧ (baudrate_bits_b.mk 1 0 0 77 1 2 200).toRaw.baudrate_bits = 0xC8214D10 :=
  ⟨by decide,
   (baud_setting_roundtrip (baudrate_bits_b.mk 1 0 0 77 1 2 200) (by decide)).2.2.1,
   by decide⟩

/-- C10: the seven named members and the reserved bits (0..3, 7, 17..19, 22..23) cover
each of the 32 bits exactly once and the members are pairwise disjoint; writing a member
of any 32-bit word changes no bit outside that member: the other six members read back
unchanged and the reserved bits are unchanged. -/
theorem baud_setting_store_frame (s : sci_b_baud_setting_t) (f : baud_field) (v : Nat)
    (hs : s.baudrate_bits < 2 ^ 32) :
    (∀ i, i < 32 →
        (baud_field.all.filter fun g => g.covers i).length
          + (if baud_reserved_mask.testBit i then 1 else 0) = 1)
    ∧ (∀ g k : baud_field, g ≠ k → bf_mask g.off g.width &&& bf_mask k.off k.width = 0)
    ∧ baud_reserved_mask = 0x00CE008F
    ∧ (∀ i, f.covers i = false →
        (s.store f v).baudrate_bits.testBit i = s.baudrate_bits.testBit i)
    ∧ (∀ g, g ≠ f → (s.store f v).load g = s.load g)
    ∧ (s.store f v).baudrate_bits &&& baud_reserved_mask
        = s.baudrate_bits &&& baud_reserved_mask
    ∧ (s.store f v).load f = v % 2 ^ f.width := by
  have frame : ∀ i, f.covers i = false →
      (s.store f v).baudrate_bits.testBit i = s.baudrate_bits.testBit i := by
    intro i hi
    simp only [sci_b_baud_setting_t.store]
    rw [testBit_bf_set _ _ _ _ _ _ (baud_field_fits f)]
    have hn : ¬ (f.off ≤ i ∧ i < f.off + f.width) := by
      simpa [baud_field.covers] using hi
    rw [if_neg hn]
    by_cases h32 : i < 32
    · simp [h32]
    · have hz : s.baudrate_bits.testBit i = false :=
        Nat.testBit_lt_two_pow (lt_of_lt_of_le hs (Nat.pow_le_pow_right (by decide) (by omega)))
      simp [hz]
  refine ⟨baud_bits_once, ?_, baud_reserved_mask_eq, frame, ?_, ?_, load_store_same s f v⟩
  · intro g k hgk
    cases g <;> cases k <;> first | exact absurd rfl hgk | decide
  · intro g hg
    exact load_store_other s f g v (Ne.symm hg)
  · apply Nat.eq_of_testBit_eq
    intro i
    rw [Nat.testBit_and, Nat.testBit_and]
    by_cases hr : baud_reserved_mask.testBit i = true
    · rw [frame i (baud_reserved_not_covered f i hr)]
    · simp only [Bool.not_eq_true] at hr
      simp [hr]

/-- C10, at the word 0xFFFFFFFF with brr rewritten to 0: only bits 8..15 change. -/
theorem baud_setting_store_frame_witness :
    (sci_b_baud_setting_t.mk 0xFFFFFFFF).baudrate_bits < 2 ^ 32
    ∧ ((sci_b_baud_setting_t.mk 0xFFFFFFFF).store .brr 0).baudrate_bits = 0xFFFF00FF
    ∧ ((sci_b_baud_setting_t.mk 0xFFFFFFFF).store .brr 0).baudrate_bits &&& baud_reserved_mask
        = (sci_b_baud_setting_t.mk 0xFFFFFFFF).baudrate_bits &&& baud_reserved_mask :=
  ⟨by decide, by decide,
   (baud_setting_store_frame (sci_b_baud_setting_t.mk 0xFFFFFFFF) .brr 0 (by decide)).2.2.2.2.2.1⟩

/-! ## Claims about the RS-485 setting -/

theorem rs485_layout :
    (rs485_field.assertion_time.off, rs485_field.assertion_time.width) = (0, 5)
    ∧ (rs485_field.negation_time.off, rs485_field.negation_time.width) = (8, 5) := by
  decide

theorem assertion_time_set (s : sci_b_uart_rs485_setting_t) (v : Nat) :
    (s.set_assertion_time v).assertion_time = v % 32 :=
  bf_get_set_same 16 _ _ _ _ (by decide)

theorem negation_time_set (s : sci_b_uart_rs485_setting_t) (v : Nat) :
    (s.set_negation_time v).negation_time = v % 32 :=
  bf_get_set_same 16 _ _ _ _ (by decide)

theorem assertion_time_set_negation (s : sci_b_uart_rs485_setting_t) (v : Nat) :
    (s.set_negation_time v).assertion_time = s.assertion_time :=
  bf_get_set_other 16 _ _ _ _ _ _ (by decide) (by decide) (by decide)

theorem negation_time_set_assertion (s : sci_b_uart_rs485_setting_t) (v : Nat) :
    (s.set_assertion_time v).negation_time = s.negation_time :=
  bf_get_set_other 16 _ _ _ _ _ _ (by decide) (by decide) (by decide)

theorem assertion_time_le (s : sci_b_uart_rs485_setting_t) : s.assertion_time ≤ 31 := by
  have h := bf_get_lt s.time_bits rs485_field.assertion_time.off rs485_field.assertion_time.width
  have hw : (2 : Nat) ^ rs485_field.assertion_time.width = 32 := by decide
  rw [hw] at h
  exact Nat.le_of_lt_succ h

theorem negation_time_le (s : sci_b_uart_rs485_setting_t) : s.negation_time ≤ 31 := by
  have h := bf_get_lt s.time_bits rs485_field.negation_time.off rs485_field.negation_time.width
  have hw : (2 : Nat) ^ rs485_field.negation_time.width = 32 := by decide
  rw [hw] at h
  exact Nat.le_of_lt_succ h

/-- C5: in every RS-485 setting assertion_time and negation_time are 5-bit unsigned
quantities: both read as a value in 0..31, every pair of values in 0..31 can be held by
the two members at once, assigning one member leaves the other unchanged, and the two
members occupy disjoint bits. -/
theorem rs485_times_five_bit (s : sci_b_uart_rs485_setting_t) (a n : Fin 32) :
    (s.assertion_time ≤ 31 ∧ s.negation_time ≤ 31)
    ∧ (rs485_field.assertion_time.width = 5 ∧ rs485_field.negation_time.width = 5)
    ∧ (((s.set_assertion_time a).set_negation_time n).assertion_time = a
        ∧ ((s.set_assertion_time a).set_negation_time n).negation_time = n)
    ∧ ((∀ v, (s.set_negation_time v).assertion_time = s.assertion_time)
        ∧ (∀ v, (s.set_assertion_time v).negation_time = s.negation_time))
    ∧ bf_mask rs485_field.assertion_time.off rs485_field.assertion_time.width
        &&& bf_mask rs485_field.negation_time.off rs485_field.negation_time.width = 0 := by
  refine ⟨⟨assertion_time_le s, negation_time_le s⟩, by decide, ⟨?_, ?_⟩,
    ⟨assertion_time_set_negation s, negation_time_set_assertion s⟩, by decide⟩
  · rw [assertion_time_set_negation, assertion_time_set]
    exact Nat.mod_eq_of_lt a.isLt
  · rw [negation_time_set]
    exact Nat.mod_eq_of_lt n.isLt

/-! ## Claims about the enumerations -/

/-- C7: the flow-control mode has the four variants RTS, CTS, HARDWARE_CTSRTS and CTSRTS
with values 0, 1, 3 and 5; the value map is injective, a raw value decodes to a variant
exactly when it is 0, 1, 3 or 5 (2 and 4 decode to nothing), and the value of a variant
decodes to that variant. -/
theorem flow_control_enumeration :
    (sci_b_uart_flow_control_t.SCI_B_UART_FLOW_CONTROL_RTS.toNat = 0
      ∧ sci_b_uart_flow_control_t.SCI_B_UART_FLOW_CONTROL_CTS.toNat = 1
      ∧ sci_b_uart_flow_control_t.SCI_B_UART_FLOW_CONTROL_HARDWARE_CTSRTS.toNat = 3
      ∧ sci_b_uart_flow_control_t.SCI_B_UART_FLOW_CONTROL_CTSRTS.toNat = 5)
    ∧ (∀ m : sci_b_uart_flow_control_t,
        m = .SCI_B_UART_FLOW_CONTROL_RTS ∨ m = .SCI_B_UART_FLOW_CONTROL_CTS
          ∨ m = .SCI_B_UART_FLOW_CONTROL_HARDWARE_CTSRTS ∨ m = .SCI_B_UART_FLOW_CONTROL_CTSRTS)
    ∧ Function.Injective sci_b_uart_flow_control_t.toNat
    ∧ (∀ n : Nat, (∃ m, sci_b_uart_flow_control_t.ofNat? n = some m)
        ↔ (n = 0 ∨ n = 1 ∨ n = 3 ∨ n = 5))
    ∧ sci_b_uart_flow_control_t.ofNat? 2 = none
    ∧ sci_b_uart_flow_control_t.ofNat? 4 = none
    ∧ (∀ m : sci_b_uart_flow_control_t, sci_b_uart_flow_control_t.ofNat? m.toNat = some m)
    ∧ (∀ (n : Nat) (m : sci_b_uart_flow_control_t),
        sci_b_uart_flow_control_t.ofNat? n = some m → m.toNat = n) := by
  refine ⟨by decide, ?_, ?_, ?_, by decide, by decide, ?_, ?_⟩
  · intro m
    cases m <;> simp
  · intro a b hab
    cases a <;> cases b <;> first | rfl | exact absurd hab (by decide)
  · intro n
    unfold sci_b_uart_flow_control_t.ofNat?
    constructor
    · rintro ⟨m, hm⟩
      split_ifs at hm <;> omega
    · rintro (h | h | h | h) <;> subst h <;> simp
  · intro m
    cases m <;> rfl
  · intro n m h
    unfold sci_b_uart_flow_control_t.ofNat? at h
    split_ifs at h <;> simp at h <;> subst h <;> simp [sci_b_uart_flow_control_t.toNat, *]

/-- C8: every receive FIFO trigger level the enumeration defines lies in 1..15; the
smallest defined level is 1, the largest is 15, and none is 0 or above 15. -/
theorem rx_fifo_trigger_levels (t : sci_b_uart_rx_fifo_trigger_t) :
    (1 ≤ t.toNat ∧ t.toNat ≤ 15)
    ∧ t.toNat ≠ 0
    ∧ sci_b_uart_rx_fifo_trigger_t.SCI_B_UART_RX_FIFO_TRIGGER_1.toNat = 1
    ∧ sci_b_uart_rx_fifo_trigger_t.SCI_B_UART_RX_FIFO_TRIGGER_MAX.toNat = 15
    ∧ sci_b_uart_rx_fifo_trigger_t.SCI_B_UART_RX_FIFO_TRIGGER_1.toNat ≤ t.toNat
    ∧ t.toNat ≤ sci_b_uart_rx_fifo_trigger_t.SCI_B_UART_RX_FIFO_TRIGGER_MAX.toNat := by
  cases t <;> decide

/-- C9, refuted as stated: a flow-control mode does have numeric value 3, namely
SCI_B_UART_FLOW_CONTROL_HARDWARE_CTSRTS. -/
theorem flow_control_value_three_is_used :
    sci_b_uart_flow_control_t.SCI_B_UART_FLOW_CONTROL_HARDWARE_CTSRTS.toNat = 3
    ∧ ¬ (∀ m : sci_b_uart_flow_control_t, m.toNat ≠ 3) := by
  refine ⟨rfl, fun h => h .SCI_B_UART_FLOW_CONTROL_HARDWARE_CTSRTS rfl⟩

/-- C9, amended: the flow-control values are 0, 1, 3 and 5, so the values skipped are
2 and 4: no mode has numeric value 2 or 4, and the mode with value 3 is
SCI_B_UART_FLOW_CONTROL_HARDWARE_CTSRTS. -/
theorem flow_control_skips_two_and_four (m : sci_b_uart_flow_control_t) :
    m.toNat ≠ 2 ∧ m.toNat ≠ 4
    ∧ (m.toNat = 0 ∨ m.toNat = 1 ∨ m.toNat = 3 ∨ m.toNat = 5)
    ∧ (m.toNat = 3 ↔ m = .SCI_B_UART_FLOW_CONTROL_HARDWARE_CTSRTS) := by
  cases m <;> simp [sci_b_uart_flow_control_t.toNat]

/-! ## Write and the transmit engine -/

theorem tx_fifo_empty_events_succ (k : Nat) (u : uart_state) :
    tx_fifo_empty_events (k + 1) u = tx_fifo_empty_event (tx_fifo_empty_events k u) := by
  induction k generalizing u with
  | zero => rfl
  | succ k ih =>
    show tx_fifo_empty_events (k + 1) (tx_fifo_empty_event u) = _
    rw [ih]
    rfl

theorem tx_fifo_empty_events_add (j k : Nat) (u : uart_state) :
    tx_fifo_empty_events (j + k) u = tx_fifo_empty_events j (tx_fifo_empty_events k u) := by
  induction j with
  | zero => simp [tx_fifo_empty_events]
  | succ j ih =>
    rw [Nat.add_right_comm, tx_fifo_empty_events_succ, ih, ← tx_fifo_empty_events_succ]

theorem tx_fifo_empty_events_idle (k : Nat) (u : uart_state) (h : u.tx_fill_irq = false) :
    tx_fifo_empty_events k u = u := by
  induction k with
  | zero => rfl
  | succ k ih =>
    rw [tx_fifo_empty_events_succ, ih]
    simp [tx_fifo_empty_event, h]

theorem tx_fifo_empty_event_active (u : uart_state) (h : u.tx_fill_irq = true)
    (hd : 1 ≤ u.ctrl.fifo_depth) :
    (tx_fifo_empty_event u).fifo_fills
        = u.fifo_fills ++ [min u.ctrl.fifo_depth u.ctrl.tx_src_bytes]
    ∧ (tx_fifo_empty_event u).ctrl.tx_src_bytes
        = u.ctrl.tx_src_bytes - min u.ctrl.fifo_depth u.ctrl.tx_src_bytes
    ∧ (tx_fifo_empty_event u).ctrl.fifo_depth = u.ctrl.fifo_depth
    ∧ (u.ctrl.fifo_depth < u.ctrl.tx_src_bytes →
        (tx_fifo_empty_event u).tx_fill_irq = true
          ∧ (tx_fifo_empty_event u).events = u.events)
    ∧ (u.ctrl.tx_src_bytes ≤ u.ctrl.fifo_depth →
        (tx_fifo_empty_event u).tx_fill_irq = false
          ∧ (tx_fifo_empty_event u).events = u.events ++ [.TX_COMPLETE]) := by
  have hne : u.ctrl.fifo_depth ≠ 0 := by omega
  unfold tx_fifo_empty_event
  simp only [h, hne, if_false, Bool.true_eq_false]
  by_cases hr : u.ctrl.tx_src_bytes - min u.ctrl.fifo_depth u.ctrl.tx_src_bytes = 0
  · simp only [hr, if_true, true_and, and_self, implies_true, and_true]
    intro hlt
    omega
  · simp only [hr, if_false, true_and, and_self, implies_true]
    intro hle
    omega

theorem tx_fifo_empty_events_running (d : Nat) (hd : 1 ≤ d) (k : Nat) (u : uart_state)
    (hirq : u.tx_fill_irq = true) (hdepth : u.ctrl.fifo_depth = d)
    (hk : k * d < u.ctrl.tx_src_bytes) :
    (tx_fifo_empty_events k u).tx_fill_irq = true
    ∧ (tx_fifo_empty_events k u).ctrl.fifo_depth = d
    ∧ (tx_fifo_empty_events k u).ctrl.tx_src_bytes = u.ctrl.tx_src_bytes - k * d
    ∧ (tx_fifo_empty_events k u).fifo_fills = u.fifo_fills ++ List.replicate k d
    ∧ (tx_fifo_empty_events k u).events = u.events := by
  induction k with
  | zero => simp [tx_fifo_empty_events, hirq, hdepth]
  | succ k ih =>
    have hmul : (k + 1) * d = k * d + d := Nat.succ_mul k d
    rw [hmul] at hk
    obtain ⟨i1, i2, i3, i4, i5⟩ := ih (by omega)
    obtain ⟨s1, s2, s3, s4, _⟩ :=
      tx_fifo_empty_event_active (tx_fifo_empty_events k u) i1 (by omega)
    rw [i2, i3] at s4
    obtain ⟨s4a, s4b⟩ := s4 (by omega)
    rw [tx_fifo_empty_events_succ, hmul]
    refine ⟨s4a, by rw [s3, i2], ?_, ?_, by rw [s4b, i5]⟩
    · rw [s2, i2, i3]
      omega
    · rw [s1, i4, i2, i3, List.replicate_succ', List.append_assoc]
      congr 3
      omega

theorem fill_events_bounds (n d : Nat) (hd : 1 ≤ d) (hn : 1 ≤ n) :
    1 ≤ fill_events n d
    ∧ (fill_events n d - 1) * d < n
    ∧ n ≤ fill_events n d * d := by
  unfold fill_events
  have h1 := Nat.div_add_mod (n + d - 1) d
  have h2 := Nat.mod_lt (n + d - 1) (show d > 0 by omega)
  rw [Nat.mul_comm] at h1
  have h3 : 1 ≤ (n + d - 1) / d := by
    rw [Nat.le_div_iff_mul_le (by omega)]
    omega
  have h4 : ((n + d - 1) / d - 1) * d = (n + d - 1) / d * d - d := by
    rw [Nat.sub_mul, Nat.one_mul]
  refine ⟨h3, ?_, ?_⟩
  · rw [h4]
    have h5 : d ≤ (n + d - 1) / d * d := by
      calc d = 1 * d := (Nat.one_mul d).symm
        _ ≤ (n + d - 1) / d * d := Nat.mul_le_mul_right d h3
    omega
  · omega

theorem write_idle (u : uart_state) (p_src n : Nat) (hopen : u.ctrl.«open» ≠ 0)
    (hidle : u.ctrl.tx_src_bytes = 0) (hp : p_src ≠ 0) (hn : 1 ≤ n) :
    R_SCI_B_UART_Write u p_src n =
      (.Success,
        { u with
          ctrl := { u.ctrl with p_tx_src := p_src, tx_src_bytes := n },
          tx_fill_irq := true }) := by
  have hn0 : n ≠ 0 := by omega
  simp [R_SCI_B_UART_Write, hopen, hidle, hp, hn0]

/-- C3: on an open instance with an active transmit transfer (tx_src_bytes > 0),
R_SCI_B_UART_Write with any buffer and any count fails with InProgress and returns the
state it was given: p_tx_src, tx_src_bytes and every other member of the control block
are unchanged. -/
theorem write_while_active_fails (u : uart_state) (p_src bytes : Nat)
    (hopen : u.ctrl.«open» ≠ 0) (hactive : 0 < u.ctrl.tx_src_bytes) :
    (R_SCI_B_UART_Write u p_src bytes).1 = .InProgress
    ∧ (R_SCI_B_UART_Write u p_src bytes).2 = u
    ∧ (R_SCI_B_UART_Write u p_src bytes).2.ctrl = u.ctrl
    ∧ (R_SCI_B_UART_Write u p_src bytes).2.ctrl.p_tx_src = u.ctrl.p_tx_src
    ∧ (R_SCI_B_UART_Write u p_src bytes).2.ctrl.tx_src_bytes = u.ctrl.tx_src_bytes := by
  have hne : u.ctrl.tx_src_bytes ≠ 0 := by omega
  simp [R_SCI_B_UART_Write, hopen, hne]

/-- C3, on an open channel with 5 bytes of a transfer at address 0x2000 left: a second
Write (here of 8 bytes from 0x3000) fails with InProgress and changes nothing. -/
theorem write_while_active_fails_witness :
    R_SCI_B_UART_Write
      ⟨⟨16, 0, 1, 0, 1, 0, 0x2000, 5, 0, 0, 0x100, 0x40118000, 0, 0, 0⟩, true, [16], []⟩
      0x3000 8
    = (.InProgress,
      ⟨⟨16, 0, 1, 0, 1, 0, 0x2000, 5, 0, 0, 0x100, 0x40118000, 0, 0, 0⟩, true, [16], []⟩) :=
  Prod.ext
    (write_while_active_fails
      ⟨⟨16, 0, 1, 0, 1, 0, 0x2000, 5, 0, 0, 0x100, 0x40118000, 0, 0, 0⟩, true, [16], []⟩
      0x3000 8 (by decide) (by decide)).1
    (write_while_active_fails
      ⟨⟨16, 0, 1, 0, 1, 0, 0x2000, 5, 0, 0, 0x100, 0x40118000, 0, 0, 0⟩, true, [16], []⟩
      0x3000 8 (by decide) (by decide)).2.1

/-- C4: for FIFO depth d >= 1 and count n >= 1, after a successful Write of n bytes each
FIFO-empty event moves min(d, remaining) bytes, the remaining count strictly decreases
and is n - k*d > 0 before each of the first ceil(n/d) events, no event is raised before
the last of them, and after exactly ceil(n/d) events zero bytes remain and exactly one
TX_COMPLETE has been raised (later FIFO-empty events change nothing); for d = 16 and
n = 40 there are three fill events, of 16, 16 and 8 bytes. -/
theorem tx_engine_fill_events (u : uart_state) (p_src n d : Nat)
    (hopen : u.ctrl.«open» ≠ 0) (hidle : u.ctrl.tx_src_bytes = 0) (hp : p_src ≠ 0)
    (hdepth : u.ctrl.fifo_depth = d) (hd : 1 ≤ d) (hn : 1 ≤ n) :
    ((R_SCI_B_UART_Write u p_src n).1 = .Success
      ∧ (R_SCI_B_UART_Write u p_src n).2.ctrl.tx_src_bytes = n
      ∧ (R_SCI_B_UART_Write u p_src n).2.ctrl.p_tx_src = p_src)
    ∧ (∀ k, k < fill_events n d →
        (tx_fifo_empty_events k (R_SCI_B_UART_Write u p_src n).2).ctrl.tx_src_bytes = n - k * d
        ∧ 0 < (tx_fifo_empty_events k (R_SCI_B_UART_Write u p_src n).2).ctrl.tx_src_bytes
        ∧ (tx_fifo_empty_events k (R_SCI_B_UART_Write u p_src n).2).events = u.events
        ∧ (tx_fifo_empty_events (k + 1) (R_SCI_B_UART_Write u p_src n).2).fifo_fills
            = (tx_fifo_empty_events k (R_SCI_B_UART_Write u p_src n).2).fifo_fills
              ++ [min d (tx_fifo_empty_events k (R_SCI_B_UART_Write u p_src n).2).ctrl.tx_src_bytes]
        ∧ (tx_fifo_empty_events (k + 1) (R_SCI_B_UART_Write u p_src n).2).ctrl.tx_src_bytes
            = (tx_fifo_empty_events k (R_SCI_B_UART_Write u p_src n).2).ctrl.tx_src_bytes
              - min d (tx_fifo_empty_events k (R_SCI_B_UART_Write u p_src n).2).ctrl.tx_src_bytes
        ∧ (tx_fifo_empty_events (k + 1) (R_SCI_B_UART_Write u p_src n).2).ctrl.tx_src_bytes
            < (tx_fifo_empty_events k (R_SCI_B_UART_Write u p_src n).2).ctrl.tx_src_bytes)
    ∧ ((tx_fifo_empty_events (fill_events n d) (R_SCI_B_UART_Write u p_src n).2).ctrl.tx_src_bytes
          = 0
        ∧ (tx_fifo_empty_events (fill_events n d) (R_SCI_B_UART_Write u p_src n).2).events
          = u.events ++ [.TX_COMPLETE]
        ∧ (tx_fifo_empty_events (fill_events n d) (R_SCI_B_UART_Write u p_src n).2).fifo_fills
          = u.fifo_fills ++ (List.replicate (fill_events n d - 1) d
              ++ [n - (fill_events n d - 1) * d])
        ∧ (tx_fifo_empty_events (fill_events n d) (R_SCI_B_UART_Write u p_src n).2).tx_fill_irq
          = false)
    ∧ (∀ k, fill_events n d ≤ k →
        tx_fifo_empty_events k (R_SCI_B_UART_Write u p_src n).2
          = tx_fifo_empty_events (fill_events n d) (R_SCI_B_UART_Write u p_src n).2)
    ∧ (d = 16 → n = 40 →
        fill_events n d = 3
        ∧ (tx_fifo_empty_events 3 (R_SCI_B_UART_Write u p_src n).2).fifo_fills
          = u.fifo_fills ++ [16, 16, 8]
        ∧ (tx_fifo_empty_events 3 (R_SCI_B_UART_Write u p_src n).2).events
          = u.events ++ [.TX_COMPLETE]) := by
  rw [write_idle u p_src n hopen hidle hp hn]
  obtain ⟨hK1, hK2, hK3⟩ := fill_events_bounds n d hd hn
  generalize hw : ({ u with
      ctrl := { u.ctrl with p_tx_src := p_src, tx_src_bytes := n },
      tx_fill_irq := true } : uart_state) = w
  dsimp only
  have w1 : w.tx_fill_irq = true := by rw [← hw]
  have w2 : w.ctrl.fifo_depth = d := by rw [← hw]; exact hdepth
  have w3 : w.ctrl.tx_src_bytes = n := by rw [← hw]
  have w4 : w.fifo_fills = u.fifo_fills := by rw [← hw]
  have w5 : w.events = u.events := by rw [← hw]
  have w6 : w.ctrl.p_tx_src = p_src := by rw [← hw]
  have before : ∀ k, k < fill_events n d → k * d < w.ctrl.tx_src_bytes := by
    intro k hk
    have hle : k * d ≤ (fill_events n d - 1) * d := Nat.mul_le_mul_right d (by omega)
    omega
  have last :
      (tx_fifo_empty_events (fill_events n d) w).ctrl.tx_src_bytes = 0
      ∧ (tx_fifo_empty_events (fill_events n d) w).events = u.events ++ [.TX_COMPLETE]
      ∧ (tx_fifo_empty_events (fill_events n d) w).fifo_fills
          = u.fifo_fills ++ (List.replicate (fill_events n d - 1) d
              ++ [n - (fill_events n d - 1) * d])
      ∧ (tx_fifo_empty_events (fill_events n d) w).tx_fill_irq = false := by
    obtain ⟨i1, i2, i3, i4, i5⟩ :=
      tx_fifo_empty_events_running d hd (fill_events n d - 1) w w1 w2 (before _ (by omega))
    obtain ⟨s1, s2, _, _, s5⟩ :=
      tx_fifo_empty_event_active (tx_fifo_empty_events (fill_events n d - 1) w) i1 (by omega)
    have hsplit : fill_events n d = (fill_events n d - 1) + 1 := by omega
    have hmul : fill_events n d * d = (fill_events n d - 1) * d + d := by
      conv_lhs => rw [hsplit]
      exact Nat.succ_mul _ d
    rw [i2, i3, w3] at s5
    obtain ⟨s5a, s5b⟩ := s5 (by omega)
    have hmin : min d (n - (fill_events n d - 1) * d) = n - (fill_events n d - 1) * d :=
      Nat.min_eq_right (by omega)
    rw [hsplit, tx_fifo_empty_events_succ, ← hsplit]
    refine ⟨?_, by rw [s5b, i5, w5], ?_, s5a⟩
    · rw [s2, i2, i3, w3, hmin]
      omega
    · rw [s1, i4, i2, i3, w3, w4, hmin, List.append_assoc]
  refine ⟨⟨rfl, w3, w6⟩, ?_, last, ?_, ?_⟩
  · intro k hk
    obtain ⟨i1, i2, i3, i4, i5⟩ := tx_fifo_empty_events_running d hd k w w1 w2 (before k hk)
    obtain ⟨s1, s2, _, _, _⟩ :=
      tx_fifo_empty_event_active (tx_fifo_empty_events k w) i1 (by omega)
    have hb := before k hk
    rw [w3] at hb i3
    refine ⟨i3, by omega, by rw [i5, w5], ?_, ?_, ?_⟩
    · rw [tx_fifo_empty_events_succ, s1, i2]
    · rw [tx_fifo_empty_events_succ, s2, i2]
    · rw [tx_fifo_empty_events_succ, s2, i2, i3]
      omega
  · intro k hk
    have hsplit : k = (k - fill_events n d) + fill_events n d := by omega
    rw [hsplit, tx_fifo_empty_events_add, tx_fifo_empty_events_idle _ _ last.2.2.2]
  · intro h16 h40
    subst h16 h40
    have hK : fill_events 40 16 = 3 := by decide
    obtain ⟨_, l2, l3, _⟩ := last
    rw [hK] at l2 l3
    exact ⟨hK, l3, l2⟩

/-- C4, at FIFO depth 16 with a Write of 40 bytes from 0x2000 on an open, idle channel:
three fill events of 16, 16 and 8 bytes, then one TX_COMPLETE and nothing left. -/
theorem tx_engine_fill_events_witness :
    fill_events 40 16 = 3
    ∧ (tx_fifo_empty_events 3
        (R_SCI_B_UART_Write
          ⟨⟨16, 0, 1, 0, 1, 0, 0, 0, 0, 0, 0x100, 0x40118000, 0, 0, 0⟩, false, [], []⟩
          0x2000 40).2).fifo_fills = [] ++ [16, 16, 8]
    ∧ (tx_fifo_empty_events 3
        (R_SCI_B_UART_Write
          ⟨⟨16, 0, 1, 0, 1, 0, 0, 0, 0, 0, 0x100, 0x40118000, 0, 0, 0⟩, false, [], []⟩
          0x2000 40).2).events = [] ++ [.TX_COMPLETE] :=
  (tx_engine_fill_events
    ⟨⟨16, 0, 1, 0, 1, 0, 0, 0, 0, 0, 0x100, 0x40118000, 0, 0, 0⟩, false, [], []⟩
    0x2000 40 16 (by decide) rfl (by decide) rfl (by decide) (by decide)).2.2.2.2 rfl rfl

/-! ## Baud solver -/

theorem pick_best_mem {α : Type} (err : α → Nat) (xs : List α) (acc : Option α) (r : α)
    (h : pick_best err acc xs = some r) : acc = some r ∨ r ∈ xs := by
  induction xs generalizing acc with
  | nil =>
    cases acc <;> simp_all [pick_best]
  | cons x xs ih =>
    cases acc with
    | none =>
      rcases ih (some x) (by simpa [pick_best] using h) with h1 | h1
      · right
        simp only [Option.some.injEq] at h1
        simp [h1]
      · right
        simp [h1]
    | some b =>
      simp only [pick_best] at h
      rcases ih _ h with h1 | h1
      · by_cases hlt : err x < err b
        · simp only [hlt, if_true, Option.some.injEq] at h1
          right
          simp [h1]
        · simp only [hlt, if_false] at h1
          left
          exact h1
      · right
        simp [h1]

theorem baud_candidates_plain_in_range (c : baudrate_bits_b) (h : c ∈ baud_candidates_plain) :
    c.in_range := by
  simp only [baud_candidates_plain, List.mem_flatMap, List.mem_map, List.mem_range] at h
  obtain ⟨cks, h1, brr, h2, bgdm, h3, abcs, h4, abcse, h5, rfl⟩ := h
  exact ⟨h3, h4, h5, show 0 < 2 by decide, h1, h2, show 0 < 256 by decide⟩

theorem baud_candidates_modulated_in_range (c : baudrate_bits_b)
    (h : c ∈ baud_candidates_modulated) : c.in_range := by
  simp only [baud_candidates_modulated, List.mem_flatMap, List.mem_map, List.mem_range] at h
  obtain ⟨p, hp, m, hm, rfl⟩ := h
  obtain ⟨h1, h2, h3, _, h5, h6, _⟩ := baud_candidates_plain_in_range p hp
  exact ⟨h1, h2, h3, show 1 < 2 by decide, h5, h6, show 128 + m < 256 by omega⟩

theorem pick_best_least {α : Type} (err : α → Nat) (xs : List α) (acc : Option α) (r : α)
    (h : pick_best err acc xs = some r) :
    (∀ a, acc = some a → err r ≤ err a) ∧ (∀ x, x ∈ xs → err r ≤ err x) := by
  induction xs generalizing acc with
  | nil =>
    cases acc with
    | none => simp [pick_best] at h
    | some b =>
      simp only [pick_best, Option.some.injEq] at h
      subst h
      simp
  | cons x xs ih =>
    cases acc with
    | none =>
      obtain ⟨h1, h2⟩ := ih (some x) (by simpa [pick_best] using h)
      refine ⟨by simp, ?_⟩
      intro y hy
      rcases List.mem_cons.mp hy with rfl | hy
      · exact h1 y rfl
      · exact h2 y hy
    | some b =>
      simp only [pick_best] at h
      obtain ⟨h1, h2⟩ := ih _ h
      by_cases hlt : err x < err b
      · simp only [hlt, if_true] at h1
        have hx := h1 x rfl
        refine ⟨?_, ?_⟩
        · intro a ha
          cases ha
          omega
        · intro y hy
          rcases List.mem_cons.mp hy with rfl | hy
          · exact hx
          · exact h2 y hy
      · simp only [hlt, if_false] at h1
        have hb := h1 b rfl
        refine ⟨?_, ?_⟩
        · intro a ha
          cases ha
          exact hb
        · intro y hy
          rcases List.mem_cons.mp hy with rfl | hy
          · omega
          · exact h2 y hy

theorem pick_best_some {α : Type} (err : α → Nat) (xs : List α) (acc : Option α)
    (h : acc.isSome = true ∨ xs ≠ []) : ∃ r, pick_best err acc xs = some r := by
  induction xs generalizing acc with
  | nil =>
    cases acc with
    | none => simp at h
    | some b => exact ⟨b, rfl⟩
  | cons x xs ih =>
    cases acc with
    | none => exact ih (some x) (Or.inl rfl)
    | some b =>
      simp only [pick_best]
      apply ih
      left
      split <;> rfl

theorem within_tolerance_of_le (a b desired tol : Nat)
    (hle : baud_error a desired ≤ baud_error b desired)
    (hb : within_tolerance b desired tol = true) : within_tolerance a desired tol = true := by
  simp only [within_tolerance, decide_eq_true_eq] at *
  exact Nat.le_trans (Nat.mul_le_mul_right 1000 hle) hb

/-- The solver succeeds whenever some setting of the space it searches meets the
tolerance. -/
theorem baud_calculate_complete (actual_rate : baudrate_bits_b → Nat)
    (baudrate : Nat) (bitrate_modulation : Bool) (baud_rate_error_x_1000 : Nat)
    (c : baudrate_bits_b) (hc : c ∈ baud_search_space bitrate_modulation)
    (hw : within_tolerance (actual_rate c) baudrate baud_rate_error_x_1000 = true) :
    ∃ s, R_SCI_B_UART_BaudCalculate actual_rate baudrate bitrate_modulation
      baud_rate_error_x_1000 = .ok s := by
  unfold R_SCI_B_UART_BaudCalculate
  have hne : baud_candidates_plain ≠ [] := by
    intro h
    have hmem : (baudrate_bits_b.mk 0 0 0 0 0 0 0) ∈ baud_candidates_plain := by
      simp only [baud_candidates_plain, List.mem_flatMap, List.mem_map, List.mem_range]
      exact ⟨0, by decide, 0, by decide, 0, by decide, 0, by decide, 0, by decide, rfl⟩
    rw [h] at hmem
    cases hmem
  obtain ⟨b, hp⟩ := pick_best_some (fun c => baud_error (actual_rate c) baudrate)
    baud_candidates_plain none (Or.inr hne)
  obtain ⟨_, hbest⟩ := pick_best_least _ _ _ _ hp
  simp only [hp]
  by_cases hwb : within_tolerance (actual_rate b) baudrate baud_rate_error_x_1000 = true
  · simp [hwb]
  · have hcp : c ∉ baud_candidates_plain := by
      intro hmem
      exact hwb (within_tolerance_of_le _ _ _ _ (hbest c hmem) hw)
    cases bitrate_modulation with
    | false =>
      simp [baud_search_space] at hc
      exact absurd hc hcp
    | true =>
      have hcm : c ∈ baud_candidates_modulated := by
        simp only [baud_search_space, if_true, List.mem_append] at hc
        rcases hc with h | h
        · exact absurd h hcp
        · exact h
      obtain ⟨m, hq⟩ := pick_best_some (fun c => baud_error (actual_rate c) baudrate)
        baud_candidates_modulated none (Or.inr (List.ne_nil_of_mem hcm))
      obtain ⟨_, hbest2⟩ := pick_best_least _ _ _ _ hq
      have hwm := within_tolerance_of_le _ _ _ _ (hbest2 c hcm) hw
      simp [hwb, hq, hwm]

/-- C2: for a desired bit rate > 0, a modulation flag and a tolerance in parts per
thousand, when R_SCI_B_UART_BaudCalculate succeeds the returned word is the packing of a
setting of the search space whose actual bit rate differs from the desired rate by at
most the tolerance; when no setting of the search space meets the tolerance it fails with
InvalidArgument, and it fails with no other error. -/
theorem baud_calculate_within_tolerance (actual_rate : baudrate_bits_b → Nat)
    (baudrate : Nat) (bitrate_modulation : Bool) (baud_rate_error_x_1000 : Nat)
    (hrate : 0 < baudrate) :
    (∀ s, R_SCI_B_UART_BaudCalculate actual_rate baudrate bitrate_modulation
            baud_rate_error_x_1000 = .ok s →
        s.fields ∈ baud_search_space bitrate_modulation
        ∧ s.fields.toRaw = s
        ∧ within_tolerance (actual_rate s.fields) baudrate baud_rate_error_x_1000 = true
        ∧ baud_error (actual_rate s.fields) baudrate * 1000
            ≤ baud_rate_error_x_1000 * baudrate)
    ∧ ((∀ c, c ∈ baud_search_space bitrate_modulation →
          within_tolerance (actual_rate c) baudrate baud_rate_error_x_1000 = false) →
        R_SCI_B_UART_BaudCalculate actual_rate baudrate bitrate_modulation
          baud_rate_error_x_1000 = .error .InvalidArgument)
    ∧ (∀ e, R_SCI_B_UART_BaudCalculate actual_rate baudrate bitrate_modulation
            baud_rate_error_x_1000 = .error e → e = .InvalidArgument) := by
  have _ := hrate
  have key : ∀ c, c.in_range → c ∈ baud_search_space bitrate_modulation →
      within_tolerance (actual_rate c) baudrate baud_rate_error_x_1000 = true →
      c.toRaw.fields ∈ baud_search_space bitrate_modulation
      ∧ c.toRaw.fields.toRaw = c.toRaw
      ∧ within_tolerance (actual_rate c.toRaw.fields) baudrate baud_rate_error_x_1000 = true
      ∧ baud_error (actual_rate c.toRaw.fields) baudrate * 1000
          ≤ baud_rate_error_x_1000 * baudrate := by
    intro c hc hmem hw
    rw [toRaw_fields c hc]
    exact ⟨hmem, rfl, hw, by simpa [within_tolerance] using hw⟩
  unfold R_SCI_B_UART_BaudCalculate
  cases hp : pick_best (fun c => baud_error (actual_rate c) baudrate) none baud_candidates_plain with
  | none => simp [hp]
  | some b =>
    simp only [hp]
    have hb : b ∈ baud_candidates_plain := by
      rcases pick_best_mem _ _ _ _ hp with h | h
      · cases h
      · exact h
    have hbs : b ∈ baud_search_space bitrate_modulation := by
      simp [baud_search_space, hb]
    by_cases hwb : within_tolerance (actual_rate b) baudrate baud_rate_error_x_1000 = true
    · simp only [hwb, if_true]
      refine ⟨?_, ?_, ?_⟩
      · intro s hs
        cases hs
        exact key b (baud_candidates_plain_in_range b hb) hbs hwb
      · intro hall
        rw [hall b hbs] at hwb
        cases hwb
      · intro e he
        cases he
    · cases bitrate_modulation with
      | false => simp [hwb]
      | true =>
        simp only [hwb, if_true, if_false, Bool.false_eq_true]
        cases hq : pick_best (fun c => baud_error (actual_rate c) baudrate) none
            baud_candidates_modulated with
        | none => simp [hq]
        | some m =>
          simp only [hq]
          have hm : m ∈ baud_candidates_modulated := by
            rcases pick_best_mem _ _ _ _ hq with h | h
            · cases h
            · exact h
          have hms : m ∈ baud_search_space true := by
            simp [baud_search_space, hm]
          by_cases hwm : within_tolerance (actual_rate m) baudrate baud_rate_error_x_1000 = true
          · simp only [hwm, if_true]
            refine ⟨?_, ?_, ?_⟩
            · intro s hs
              cases hs
              exact key m (baud_candidates_modulated_in_range m hm) hms hwm
            · intro hall
              rw [hall m hms] at hwm
              cases hwm
            · intro e he
              cases he
          · simp [hwm]

/-- C2, with a generator running at 7372800 / (16 * (brr + 1)) bits per second and a
desired rate of 9600 at tolerance 0: the solver succeeds (brr = 47 gives 9600 exactly)
and the setting it returns has no error. -/
theorem baud_calculate_within_tolerance_witness :
    0 < 9600
    ∧ ∃ s, R_SCI_B_UART_BaudCalculate (fun c => 7372800 / (16 * (c.brr + 1))) 9600 false 0
          = .ok s
        ∧ baud_error ((fun c : baudrate_bits_b => 7372800 / (16 * (c.brr + 1))) s.fields) 9600
            * 1000 ≤ 0 * 9600 := by
  refine ⟨by decide, ?_⟩
  have hmem : (baudrate_bits_b.mk 0 0 0 47 0 0 0) ∈ baud_search_space false := by
    simp only [baud_search_space, baud_candidates_plain, List.mem_flatMap, List.mem_map,
      List.mem_range, List.mem_append]
    exact Or.inl ⟨0, by decide, 47, by decide, 0, by decide, 0, by decide, 0, by decide, rfl⟩
  obtain ⟨s, hs⟩ := baud_calculate_complete (fun c => 7372800 / (16 * (c.brr + 1))) 9600 false 0
    (baudrate_bits_b.mk 0 0 0 47 0 0 0) hmem (by decide)
  exact ⟨s, hs,
    ((baud_calculate_within_tolerance (fun c => 7372800 / (16 * (c.brr + 1))) 9600 false 0
      (by decide)).1 s hs).2.2.2⟩

/-! ## Open and the RS-485 timing members -/

theorem bf_set_mod (W raw off w v : Nat) :
    bf_set W raw off w (v % 2 ^ w) = bf_set W raw off w v := by
  unfold bf_set
  rw [Nat.and_pow_two_sub_one_eq_mod, Nat.and_pow_two_sub_one_eq_mod, Nat.mod_mod]

theorem set_assertion_time_mod (s : sci_b_uart_rs485_setting_t) (v : Nat) :
    s.set_assertion_time (v % 32) = s.set_assertion_time v := by
  have hw : (32 : Nat) = 2 ^ rs485_field.assertion_time.width := by decide
  unfold sci_b_uart_rs485_setting_t.set_assertion_time
  rw [hw, bf_set_mod]

theorem set_negation_time_mod (s : sci_b_uart_rs485_setting_t) (v : Nat) :
    s.set_negation_time (v % 32) = s.set_negation_time v := by
  have hw : (32 : Nat) = 2 ^ rs485_field.negation_time.width := by decide
  unfold sci_b_uart_rs485_setting_t.set_negation_time
  rw [hw, bf_set_mod]

/-- C6, refuted as stated: a caller that supplies assertion_time = 32 (or negation_time
= 40) stores 0 (or 8) in the 5-bit member, the configuration is the one a caller
supplying 0 (or 8) builds, and Open on a closed channel succeeds with it instead of
failing with InvalidArgument. -/
theorem open_accepts_truncated_rs485_time :
    ((sci_b_uart_rs485_setting_t.mk 1 0 0).set_assertion_time 32).assertion_time = 0
    ∧ (sci_b_uart_rs485_setting_t.mk 1 0 0).set_assertion_time 32
        = (sci_b_uart_rs485_setting_t.mk 1 0 0).set_assertion_time 0
    ∧ (R_SCI_B_UART_Open (fun _ => true) (fun _ _ => true)
        ⟨⟨16, 0, 0, 0, 0, 0, 0, 0, 0, 0, 0, 0x40118000, 0, 0, 0⟩, false, [], []⟩ 0x100
        ⟨0, 1, 0, ⟨0⟩, 15, 0xFFFF, 0,
          (sci_b_uart_rs485_setting_t.mk 1 0 0).set_assertion_time 32⟩).1 = .Success
    ∧ ((sci_b_uart_rs485_setting_t.mk 1 0 0).set_negation_time 40).negation_time = 8
    ∧ (R_SCI_B_UART_Open (fun _ => true) (fun _ _ => true)
        ⟨⟨16, 0, 0, 0, 0, 0, 0, 0, 0, 0, 0, 0x40118000, 0, 0, 0⟩, false, [], []⟩ 0x100
        ⟨0, 1, 0, ⟨0⟩, 15, 0xFFFF, 0,
          (sci_b_uart_rs485_setting_t.mk 1 0 0).set_negation_time 40⟩).1 = .Success := by
  decide

/-- C6, amended: every configuration Open receives carries RS-485 assertion and negation
times in 0..31, because each is a 5-bit member: a value v the caller supplies is stored
as v mod 32, the configuration is the one built from v mod 32, Open returns on it what it
returns on that one, and a configuration whose clock source, flow-control mode and pin
combination are accepted is never failed with InvalidArgument, whatever was supplied for
the two times. -/
theorem open_sees_five_bit_rs485_times (pins_ok : sci_b_uart_extended_cfg_t → Bool)
    (realizable : sci_b_uart_instance_ctrl_t → sci_b_uart_extended_cfg_t → Bool)
    (u : uart_state) (p_cfg : Nat) (cfg : sci_b_uart_extended_cfg_t) (v : Nat) :
    (cfg.rs485_setting.assertion_time ≤ 31 ∧ cfg.rs485_setting.negation_time ≤ 31)
    ∧ ((cfg.rs485_setting.set_assertion_time v).assertion_time = v % 32
        ∧ (cfg.rs485_setting.set_negation_time v).negation_time = v % 32)
    ∧ (R_SCI_B_UART_Open pins_ok realizable u p_cfg
          { cfg with rs485_setting := cfg.rs485_setting.set_assertion_time v }
        = R_SCI_B_UART_Open pins_ok realizable u p_cfg
          { cfg with rs485_setting := cfg.rs485_setting.set_assertion_time (v % 32) }
      ∧ R_SCI_B_UART_Open pins_ok realizable u p_cfg
          { cfg with rs485_setting := cfg.rs485_setting.set_negation_time v }
        = R_SCI_B_UART_Open pins_ok realizable u p_cfg
          { cfg with rs485_setting := cfg.rs485_setting.set_negation_time (v % 32) })
    ∧ (cfg.clock ≤ 3 → (sci_b_uart_flow_control_t.ofNat? cfg.flow_control).isSome = true →
        pins_ok cfg = true →
        (R_SCI_B_UART_Open pins_ok realizable u p_cfg cfg).1 ≠ .InvalidArgument) := by
  have ha := assertion_time_le cfg.rs485_setting
  have hn := negation_time_le cfg.rs485_setting
  refine ⟨⟨ha, hn⟩, ⟨assertion_time_set _ v, negation_time_set _ v⟩, ⟨?_, ?_⟩, ?_⟩
  · rw [set_assertion_time_mod]
  · rw [set_negation_time_mod]
  · intro hclk hflow hpins
    have h1 : ¬ 3 < cfg.clock := by omega
    have h2 : ¬ 31 < cfg.rs485_setting.assertion_time := by omega
    have h3 : ¬ 31 < cfg.rs485_setting.negation_time := by omega
    have h4 : (sci_b_uart_flow_control_t.ofNat? cfg.flow_control).isNone = false := by
      cases hf : sci_b_uart_flow_control_t.ofNat? cfg.flow_control with
      | none => rw [hf] at hflow; cases hflow
      | some m => rfl
    unfold R_SCI_B_UART_Open
    by_cases hopen : u.ctrl.«open» ≠ 0
    · simp [hopen]
    · by_cases hr : realizable u.ctrl cfg = false
      · simp [hopen, h1, h2, h3, h4, hpins, hr]
      · simp [hopen, h1, h2, h3, h4, hpins, hr]

end SciBUart
